import Mathlib

/-!
Verification development for the tough / tuftool repository.

The definitions below shallowly embed the tuftool command-line code under
src/tuftool/src (pure decision logic is translated directly; filesystem and
process effects become explicit state passing and operation traces).  The
tough crate's editor and loader are not part of the provided sources; where a
claim depends on them, the corresponding definition is modelled from the
specification and marked as such in its doc comment.
-/

namespace TufTool

abbrev KeyId := String

/-! ## Editor sign operation (modelled from the spec) -/

inductive SignError
  | thresholdNotMet
  deriving DecidableEq

/-- Modelled from the spec: the sign operation of RepositoryEditor and
TargetsEditor (the tough crate editor is missing from src; only its callers
src/tuftool/src/update.rs and src/tuftool/src/create_role.rs are present).
The spec says: re-canonicalize each dirty draft body, sign with provided
Signers, retain only signatures whose key-ids are authorized by the
controlling role assignment; fail with ThresholdNotMet if fewer than the
threshold valid signatures are produced.  The result is the list of retained
signing key-ids. -/
def retainedSignatures (signerKeyIds authorizedKeyIds : List KeyId) : List KeyId :=
  (signerKeyIds.filter (fun k => authorizedKeyIds.contains k)).dedup

def signRole (signerKeyIds : List KeyId) (authorizedKeyIds : List KeyId)
    (threshold : Nat) : Except SignError (List KeyId) :=
  if (retainedSignatures signerKeyIds authorizedKeyIds).length < threshold
  then Except.error SignError.thresholdNotMet
  else Except.ok (retainedSignatures signerKeyIds authorizedKeyIds)

/-! ## main: exit codes and backtrace printing (src/tuftool/src/main.rs) -/

structure MainOutput where
  exitCode : Nat
  stderrLines : List String
  deriving DecidableEq

/-- From src/tuftool/src/main.rs lines 214-230 (fn main).  `result` is the
outcome of running the selected subcommand, `env` is the process environment
(std::env::var_os), and `errBacktrace` is the backtrace carried by the error,
if any.  On Ok the process exits 0 with nothing printed; on Err it prints the
diagnostic to stderr, then prints the backtrace exactly when the variable
RUST_BACKTRACE is set to a value other than "0" and the error carries a
backtrace, and exits 1. -/
def mainRun (result : Except String Unit) (env : String → Option String)
    (errBacktrace : Option String) : MainOutput :=
  match result with
  | Except.ok _ => { exitCode := 0, stderrLines := [] }
  | Except.error e =>
    { exitCode := 1
      stderrLines :=
        [e] ++
          (match env "RUST_BACKTRACE" with
           | some v =>
             if v ≠ "0" then
               match errBacktrace with
               | some b => [b]
               | none => []
             else []
           | none => []) }

/-- An environment in which only the variable BACKTRACE is set (to "1"). -/
def envBacktraceOnly : String → Option String :=
  fun n => if n = "BACKTRACE" then some "1" else none

/-- An environment in which only RUST_BACKTRACE is set (to "1"). -/
def envRustBacktraceOne : String → Option String :=
  fun n => if n = "RUST_BACKTRACE" then some "1" else none

/-! ## RepositoryEditor sign cascade (modelled from the spec) -/

structure DelegatedDraft where
  name : String
  version : Nat
  dirty : Bool
  deriving DecidableEq

structure RepoEditorState where
  delegated : List DelegatedDraft
  targetsVersion : Nat
  snapshotVersion : Nat
  timestampVersion : Nat
  deriving DecidableEq

/-- Stand-in for the digest of a written snapshot document (the concrete hash
function is a cryptographic primitive, out of scope; only agreement between
the producer and the consumer matters here). -/
def snapshotDigest (meta : List (String × Nat)) (version : Nat) : Nat :=
  meta.foldl (fun a p => a + p.1.length + 31 * p.2) (17 * version)

structure SignedRepoOut where
  updateOrder : List String
  writtenTargetsDocs : List (String × Nat)
  snapshotMeta : List (String × Nat)
  snapshotVersion : Nat
  timestampMetaSnapshotVersion : Nat
  timestampMetaSnapshotDigest : Nat
  deriving DecidableEq

/-- Modelled from the spec: RepositoryEditor::sign (the tough crate editor is
missing from src; its caller is src/tuftool/src/update.rs, update_metadata).
The cascading re-sign updates, in order: (1) all dirty delegated targets,
(2) top-level targets, (3) snapshot, with its meta map refreshed to the new
versions of every updated targets file, (4) timestamp, with its meta refreshed
to the new snapshot's version and digest. -/
def repoSign (s : RepoEditorState) : SignedRepoOut :=
  let dirtyDel := s.delegated.filter (fun d => d.dirty)
  let written := dirtyDel.map (fun d => (d.name, d.version)) ++ [("targets", s.targetsVersion)]
  { updateOrder := dirtyDel.map (fun d => d.name) ++ ["targets", "snapshot", "timestamp"]
    writtenTargetsDocs := written
    snapshotMeta := written
    snapshotVersion := s.snapshotVersion
    timestampMetaSnapshotVersion := s.snapshotVersion
    timestampMetaSnapshotDigest := snapshotDigest written s.snapshotVersion }

/-- Look a role name up in a meta map. -/
def metaLookup (meta : List (String × Nat)) (n : String) : Option Nat :=
  (meta.find? (fun p => p.1 == n)).map (fun p => p.2)

/-! ## Expiration enforcement (src/tuftool/src/update.rs and spec-modelled loader) -/

inductive ExpirationEnforcement
  | safe
  | permissive
  deriving DecidableEq

/-- From src/tuftool/src/update.rs lines 108-114 (UpdateArgs::run): when
--allow-expired-repo was passed the expired-repo warning is printed and the
repository is loaded with the permissive enforcement (the source's Unsafe
variant); otherwise it is loaded with Safe and no warning is printed.  The
Bool component records whether the warning was printed. -/
def updateRunEnforcement (allowExpiredRepo : Bool) : ExpirationEnforcement × Bool :=
  if allowExpiredRepo then (ExpirationEnforcement.permissive, true)
  else (ExpirationEnforcement.safe, false)

inductive LoadError
  | expired (role : String)
  | verificationFailure (role : String)
  deriving DecidableEq

/-- One role's verification inputs during a load: whether its metadata is
expired and whether any non-expiration verification check fails for it. -/
structure RoleCheck where
  role : String
  isExpired : Bool
  otherCheckFails : Bool
  deriving DecidableEq

/-- Modelled from the spec: the per-role verification step of the loader (the
tough crate loader is missing from src; only its caller in update.rs is
present).  Non-expiration verification failures are fatal under both
enforcement modes; an expired role fails the load with Expired under Safe and
is downgraded to a warning under the permissive mode (the source's Unsafe). -/
def checkRole (enf : ExpirationEnforcement) (rc : RoleCheck) :
    Except LoadError (List String) :=
  if rc.otherCheckFails then Except.error (LoadError.verificationFailure rc.role)
  else if rc.isExpired then
    match enf with
    | ExpirationEnforcement.safe => Except.error (LoadError.expired rc.role)
    | ExpirationEnforcement.permissive => Except.ok ["expired metadata for role " ++ rc.role]
  else Except.ok []

/-- Modelled from the spec: a load verifies each role in sequence and aborts
on the first verification failure, accumulating warnings otherwise. -/
def loadRepo (enf : ExpirationEnforcement) : List RoleCheck → Except LoadError (List String)
  | [] => Except.ok []
  | rc :: rest =>
    match checkRole enf rc with
    | Except.error e => Except.error e
    | Except.ok w =>
      match loadRepo enf rest with
      | Except.error e => Except.error e
      | Except.ok ws => Except.ok (w ++ ws)

/-! ## Delegation path sets (src/tuftool/src/add_role.rs) -/

inductive PathSet
  | paths (patterns : List String)
  | pathHashPrefixes (prefixes : List String)
  deriving DecidableEq

/-- From src/tuftool/src/add_role.rs lines 115-122 (and the identical block at
lines 166-173): the path set passed to add_role is built from the parsed
--paths and --path-hash-prefixes options; path patterns win when present,
otherwise hash prefixes, otherwise an empty pattern list. -/
def choosePathSet (paths : Option (List String)) (prefixes : Option (List String)) :
    PathSet :=
  match paths with
  | some p => PathSet.paths p
  | none =>
    match prefixes with
    | some l => PathSet.pathHashPrefixes l
    | none => PathSet.paths []

/-- From the clap attribute on AddRoleArgs (src/tuftool/src/add_role.rs lines
57-63): --paths conflicts with --path-hash-prefixes, so the argument parser
accepts an invocation only when the two are not both supplied. -/
def addRoleArgsAccepted (paths : Option (List String)) (prefixes : Option (List String)) :
    Bool :=
  !(paths.isSome && prefixes.isSome)

/-! ## Atomic metadata writes (src/tuftool/src/main.rs, write_file) -/

/-- Filesystem operations performed by write_file, in order.  createTemp is
the creation of a named temporary file in the destination's parent directory;
rename is the successful atomic rename publishing it at the destination;
removeTemp is the deletion of the temporary file (the tempfile crate removes
it when a TempPath or a NamedTempFile — including the one carried inside a
persist error — is dropped).  fsync never occurs in the source, but is part
of the vocabulary so that its absence can be stated. -/
inductive FsOp
  | createTemp
  | writeAll
  | fsync
  | rename
  | removeTemp
  deriving DecidableEq

inductive WriteFailure
  | noParent
  | tempCreate
  | serializeJson
  | writeErr
  | persistErr
  deriving DecidableEq

/-- The observable filesystem state at the destination path. -/
structure FsState where
  destContents : Option (List Nat)
  deriving DecidableEq

/-- The environment write_file runs in: which of its fallible steps fail. -/
structure WriteEnv where
  hasParent : Bool
  tempCreateFails : Bool
  serializeFails : Bool
  writeFails : Bool
  persistFails : Bool
  deriving DecidableEq

/-- From src/tuftool/src/main.rs lines 124-147 (write_file): resolve the
destination's parent directory, create a named temporary file there, serialize
the JSON value, write it to the temporary file, and persist (atomically
rename) the temporary file onto the destination.  Every early return drops
the temporary file, removing it; a successful rename consumes it.  The result
is the Result value, the resulting destination state, and the trace of
filesystem operations performed. -/
def write_file (env : WriteEnv) (st : FsState) (buf : List Nat) :
    Except WriteFailure Unit × FsState × List FsOp :=
  if env.hasParent = false then (Except.error WriteFailure.noParent, st, [])
  else if env.tempCreateFails then (Except.error WriteFailure.tempCreate, st, [])
  else if env.serializeFails then
    (Except.error WriteFailure.serializeJson, st, [FsOp.createTemp, FsOp.removeTemp])
  else if env.writeFails then
    (Except.error WriteFailure.writeErr, st,
      [FsOp.createTemp, FsOp.writeAll, FsOp.removeTemp])
  else if env.persistFails then
    (Except.error WriteFailure.persistErr, st,
      [FsOp.createTemp, FsOp.writeAll, FsOp.removeTemp])
  else
    (Except.ok (), { destContents := some buf },
      [FsOp.createTemp, FsOp.writeAll, FsOp.rename])

/-- Whether a trace of filesystem operations leaves a temporary-file residue
visible: a created temporary file that is neither renamed away nor removed. -/
def tempResidue (ops : List FsOp) : Bool :=
  ops.foldl
    (fun acc op =>
      match op with
      | FsOp.createTemp => true
      | FsOp.removeTemp => false
      | FsOp.rename => false
      | _ => acc)
    false

/-! ## Target ingest (src/tuftool/src/main.rs, build_targets / process_target) -/

/-- One entry produced by the directory walker: the path of the entry below
the input directory, as components, and whether the entry is a regular file. -/
structure WalkEntry where
  pathComponents : List String
  isFile : Bool
  deriving DecidableEq

/-- From src/tuftool/src/main.rs lines 196-212 (process_target): the target
name is the path's final component (Path::file_name); the target descriptor
is computed from the file at the full path — here the full path itself stands
for the descriptor Target::from_path computes from it.  A path with no final
component has no file name and is an error. -/
def process_target (e : WalkEntry) : Option (String × List String) :=
  match e.pathComponents.getLast? with
  | some name => some (name, e.pathComponents)
  | none => none

/-- Insertion into the map of targets, with the semantics of HashMap::insert:
an existing entry with the same key is overwritten in place, otherwise the
entry is appended. -/
def hmInsert (m : List (String × List String)) (k : String) (v : List String) :
    List (String × List String) :=
  if m.any (fun p => p.1 == k) then m.map (fun p => if p.1 == k then (k, v) else p)
  else m ++ [(k, v)]

/-- From src/tuftool/src/main.rs lines 151-194 (build_targets), with the
walker's entries given as a list: every regular-file entry is processed with
process_target and collected into the map (later entries overwriting earlier
ones with the same name, as collecting into a HashMap does); entries that are
not regular files are skipped; a file entry with no file name aborts with an
error. -/
def buildTargetsAux (m : List (String × List String)) :
    List WalkEntry → Except String (List (String × List String))
  | [] => Except.ok m
  | e :: rest =>
    if e.isFile then
      match process_target e with
      | some (n, t) => buildTargetsAux (hmInsert m n t) rest
      | none => Except.error "entry has no file name"
    else buildTargetsAux m rest

def build_targets (entries : List WalkEntry) :
    Except String (List (String × List String)) :=
  buildTargetsAux [] entries

/-! ## Key resolution in the delegation commands
(src/tuftool/src/create_role.rs and src/tuftool/src/add_key_role.rs) -/

/-- A computation that either produces a value or panics (the process aborts
without going through the Result channel). -/
inductive PanicOr (α : Type)
  | panicked
  | ok (value : α)
  deriving DecidableEq

/-- A TUF public key as returned by Sign::tuf_key, together with the outcome
of key_id(), which derives the key identifier and can fail on serialization. -/
structure TufKey where
  material : String
  keyIdResult : Option String
  deriving DecidableEq

/-- A key source: as_sign() resolves it to a signer (whose tuf_key is
recorded), or fails. -/
structure KeySourceModel where
  asSignResult : Option TufKey
  deriving DecidableEq

/-- HashMap::insert for the key-id to key map. -/
def keyMapInsert (m : List (String × TufKey)) (k : String) (v : TufKey) :
    List (String × TufKey) :=
  if m.any (fun p => p.1 == k) then m.map (fun p => if p.1 == k then (k, v) else p)
  else m ++ [(k, v)]

/-- From src/tuftool/src/create_role.rs lines 62-69 (key_hash_map): for each
source the code calls source.as_sign().await.unwrap() and
key_pair.key_id().unwrap(); a failing source or a failing key-id derivation
panics the process instead of returning an error. -/
def key_hash_map : List KeySourceModel → PanicOr (List (String × TufKey))
  | [] => PanicOr.ok []
  | s :: rest =>
    match s.asSignResult with
    | none => PanicOr.panicked
    | some kp =>
      match kp.keyIdResult with
      | none => PanicOr.panicked
      | some kid =>
        match key_hash_map rest with
        | PanicOr.panicked => PanicOr.panicked
        | PanicOr.ok m => PanicOr.ok (keyMapInsert m kid kp)

inductive CliError
  | keyPairFromKeySource
  | jsonSerialization
  deriving DecidableEq

/-- From src/tuftool/src/add_key_role.rs lines 67-83 (AddKeyArgs::add_key,
key-pair construction): the same map, but each fallible call is followed by
context(...)?, so failures propagate through the Result channel as errors. -/
def addKeyKeyPairs : List KeySourceModel → Except CliError (List (String × TufKey))
  | [] => Except.ok []
  | s :: rest =>
    match s.asSignResult with
    | none => Except.error CliError.keyPairFromKeySource
    | some kp =>
      match kp.keyIdResult with
      | none => Except.error CliError.jsonSerialization
      | some kid =>
        match addKeyKeyPairs rest with
        | Except.error e => Except.error e
        | Except.ok m => Except.ok (keyMapInsert m kid kp)

/-! ## TargetsEditor add_key (modelled from the spec) -/

/-- The parts of a delegations block that add_key touches: the key-id to
public-key mapping of the selected block, and each role's authorized key-id
set (kept in insertion order). -/
structure DelegationsModel where
  keyMap : String → Option TufKey
  roleKeyIds : String → List String

/-- Register one key-pair binding: a binding for an already-present key-id is
replaced, a new key-id is added. -/
def insertKeyPair (m : String → Option TufKey) (kid : String) (k : TufKey) :
    String → Option TufKey :=
  fun x => if x = kid then some k else m x

/-- Append key-ids to a role's authorized set, skipping those already
present. -/
def addKeyIdsToRole (l : List String) (kids : List String) : List String :=
  kids.foldl (fun acc kid => if kid ∈ acc then acc else acc ++ [kid]) l

/-- Modelled from the spec: TargetsEditor::add_key (the tough crate editor is
missing from src; its caller is src/tuftool/src/add_key_role.rs lines 84-85).
It registers the new public keys in the selected delegations block and, when
a role is given, also appends their key-ids to that role's authorized key-id
set; duplicate key-ids are idempotent. -/
def add_key (keyPairs : List (String × TufKey)) (role : Option String)
    (s : DelegationsModel) : DelegationsModel :=
  { keyMap := keyPairs.foldl (fun m p => insertKeyPair m p.1 p.2) s.keyMap
    roleKeyIds :=
      match role with
      | none => s.roleKeyIds
      | some r =>
        fun x =>
          if x = r then addKeyIdsToRole (s.roleKeyIds x) (keyPairs.map Prod.fst)
          else s.roleKeyIds x }

/-- The last binding a list of key pairs holds for a key-id, if any (later
insertions into the key map override earlier ones). -/
def lastBinding : List (String × TufKey) → String → Option TufKey
  | [], _ => none
  | p :: ps, x =>
    match lastBinding ps x with
    | some k => some k
    | none => if p.1 = x then some p.2 else none

/-! ## Theorems -/

/-- Claim C1: for every sign operation of an editor, only signatures whose
key-ids are authorized by the controlling role assignment are retained, the
operation fails with ThresholdNotMet whenever fewer than the role's threshold
of valid signatures are produced, and in particular a targets role with
threshold 2 signed with only one authorized key fails with ThresholdNotMet. -/
theorem sign_retains_authorized_and_enforces_threshold
    (signers auth : List KeyId) (t : Nat) :
    (∀ ks, signRole signers auth t = Except.ok ks →
      (∀ k ∈ ks, k ∈ auth) ∧ t ≤ ks.length) ∧
    ((retainedSignatures signers auth).length < t ↔
      signRole signers auth t = Except.error SignError.thresholdNotMet) ∧
    signRole ["keyA"] ["keyA", "keyB"] 2 = Except.error SignError.thresholdNotMet := by
  refine ⟨?_, ⟨?_, ?_⟩, by rfl⟩
  · intro ks hok
    rw [signRole] at hok
    split at hok
    · exact Except.noConfusion hok
    · rename_i h
      injection hok with h2
      subst h2
      refine ⟨?_, by omega⟩
      intro k hk
      have h1 := List.mem_dedup.mp hk
      have h3 := (List.mem_filter.mp h1).2
      simpa using h3
  · intro h
    rw [signRole, if_pos h]
  · intro h
    by_contra hn
    rw [signRole, if_neg hn] at h
    exact Except.noConfusion h

/-- Witness for C1: a threshold-2 role signed with one authorized key. -/
theorem sign_retains_authorized_and_enforces_threshold_witness :
    signRole ["keyA"] ["keyA", "keyB"] 2 = Except.error SignError.thresholdNotMet :=
  (sign_retains_authorized_and_enforces_threshold [] [] 0).2.2

/-- Claim C6: the process exits 0 exactly when the subcommand succeeds, 1 on
any error, and on error the diagnostic is printed to stderr. -/
theorem main_exit_code_contract (result : Except String Unit)
    (env : String → Option String) (bt : Option String) :
    ((mainRun result env bt).exitCode = 0 ↔ result = Except.ok ()) ∧
    ((mainRun result env bt).exitCode = 1 ↔ ∃ e, result = Except.error e) ∧
    (∀ e, result = Except.error e → e ∈ (mainRun result env bt).stderrLines) := by
  cases result with
  | ok u =>
    cases u
    refine ⟨by simp [mainRun], by simp [mainRun], ?_⟩
    intro e he
    exact Except.noConfusion he
  | error e =>
    refine ⟨by simp [mainRun], by simp [mainRun], ?_⟩
    intro e2 he
    injection he with h
    subst h
    simp [mainRun]

/-- Witness for C6: a failing subcommand has its diagnostic on stderr. -/
theorem main_exit_code_contract_witness :
    "boom" ∈ (mainRun (Except.error "boom") envRustBacktraceOne (some "tr")).stderrLines :=
  (main_exit_code_contract (Except.error "boom") envRustBacktraceOne (some "tr")).2.2 "boom" rfl

/-- Counterexample for C7: with BACKTRACE set to "1" (and RUST_BACKTRACE
unset), an error that carries a backtrace prints no stack trace — stderr
holds only the diagnostic, so the toggle named BACKTRACE does not control
backtrace output. -/
theorem backtrace_env_name_counterexample :
    (mainRun (Except.error "boom") envBacktraceOnly (some "trace")).stderrLines = ["boom"] ∧
    "trace" ∉ (mainRun (Except.error "boom") envBacktraceOnly (some "trace")).stderrLines := by
  refine ⟨rfl, by decide⟩

/-- Claim C7 (amended): the stack trace is included in the error output if
and only if the environment variable named RUST_BACKTRACE is present and not
equal to "0" and the error carries a backtrace. -/
theorem backtrace_rust_env_var (e : String) (env : String → Option String) (b : String) :
    ((mainRun (Except.error e) env (some b)).stderrLines = [e, b] ↔
      ∃ v, env "RUST_BACKTRACE" = some v ∧ v ≠ "0") ∧
    (mainRun (Except.error e) env none).stderrLines = [e] ∧
    (env "RUST_BACKTRACE" = some "0" →
      (mainRun (Except.error e) env (some b)).stderrLines = [e]) := by
  cases henv : env "RUST_BACKTRACE" with
  | none => simp [mainRun, henv]
  | some v =>
    by_cases hv : v = "0"
    · subst hv
      simp [mainRun, henv]
    · simp [mainRun, henv, hv]

/-- Witness for the amended C7: with RUST_BACKTRACE=1 the backtrace is
printed after the diagnostic. -/
theorem backtrace_rust_env_var_witness :
    (mainRun (Except.error "boom") envRustBacktraceOne (some "trace")).stderrLines
      = ["boom", "trace"] :=
  (backtrace_rust_env_var "boom" envRustBacktraceOne "trace").1.mpr ⟨"1", rfl, by decide⟩

theorem loadRepo_safe_expired (roles : List RoleCheck)
    (hok : ∀ x ∈ roles, x.otherCheckFails = false)
    (rc : RoleCheck) (hmem : rc ∈ roles) (hexp : rc.isExpired = true) :
    ∃ r ∈ roles, r.isExpired = true ∧
      loadRepo ExpirationEnforcement.safe roles = Except.error (LoadError.expired r.role) := by
  induction roles with
  | nil => cases hmem
  | cons hd tl ih =>
    have hhd : hd.otherCheckFails = false := hok hd (List.mem_cons_self _ _)
    by_cases hhe : hd.isExpired = true
    · exact ⟨hd, List.mem_cons_self _ _, hhe, by simp [loadRepo, checkRole, hhd, hhe]⟩
    · have hmem2 : rc ∈ tl := by
        cases List.mem_cons.mp hmem with
        | inl he => subst he; exact absurd hexp hhe
        | inr h2 => exact h2
      obtain ⟨r, hrmem, hrexp, hload⟩ :=
        ih (fun x hx => hok x (List.mem_cons_of_mem _ hx)) hmem2
      refine ⟨r, List.mem_cons_of_mem _ hrmem, hrexp, ?_⟩
      simp [loadRepo, checkRole, hhd, hhe, hload]

theorem loadRepo_permissive_ok (roles : List RoleCheck)
    (hok : ∀ x ∈ roles, x.otherCheckFails = false) :
    ∃ ws, loadRepo ExpirationEnforcement.permissive roles = Except.ok ws := by
  induction roles with
  | nil => exact ⟨[], rfl⟩
  | cons hd tl ih =>
    obtain ⟨ws, hws⟩ := ih (fun x hx => hok x (List.mem_cons_of_mem _ hx))
    have hhd : hd.otherCheckFails = false := hok hd (List.mem_cons_self _ _)
    obtain ⟨w, hw⟩ : ∃ w, checkRole ExpirationEnforcement.permissive hd = Except.ok w := by
      by_cases hhe : hd.isExpired = true <;> simp [checkRole, hhd, hhe]
    exact ⟨w ++ ws, by rw [loadRepo, hw, hws]⟩

theorem loadRepo_other_failure_fatal (enf : ExpirationEnforcement)
    (roles : List RoleCheck) (rc : RoleCheck) (hmem : rc ∈ roles)
    (hf : rc.otherCheckFails = true) :
    ∀ ws, loadRepo enf roles ≠ Except.ok ws := by
  induction roles with
  | nil => cases hmem
  | cons hd tl ih =>
    intro ws h
    rw [loadRepo] at h
    cases hch : checkRole enf hd with
    | error e => rw [hch] at h; exact Except.noConfusion h
    | ok w =>
      rw [hch] at h
      cases hload : loadRepo enf tl with
      | error e => rw [hload] at h; exact Except.noConfusion h
      | ok ws2 =>
        have hmem2 : rc ∈ tl := by
          cases List.mem_cons.mp hmem with
          | inl he =>
            subst he
            simp [checkRole, hf] at hch
          | inr h2 => exact h2
        exact ih hmem2 ws2 hload

/-- Claim C3: under Safe, loading a repository with any expired role fails
with Expired for an expired role; under the permissive mode (the source's
Unsafe), expiration is downgraded to a warning while every other verification
check remains fatal; and the update command loads permissively with a warning
exactly when --allow-expired-repo is passed, under Safe otherwise. -/
theorem expiration_enforcement_policy (roles : List RoleCheck) (rc : RoleCheck)
    (hmem : rc ∈ roles) :
    (rc.isExpired = true → (∀ x ∈ roles, x.otherCheckFails = false) →
      ∃ r ∈ roles, r.isExpired = true ∧
        loadRepo ExpirationEnforcement.safe roles = Except.error (LoadError.expired r.role)) ∧
    ((∀ x ∈ roles, x.otherCheckFails = false) →
      ∃ ws, loadRepo ExpirationEnforcement.permissive roles = Except.ok ws) ∧
    (rc.otherCheckFails = true →
      ∀ enf ws, loadRepo enf roles ≠ Except.ok ws) ∧
    updateRunEnforcement true = (ExpirationEnforcement.permissive, true) ∧
    updateRunEnforcement false = (ExpirationEnforcement.safe, false) := by
  refine ⟨?_, ?_, ?_, rfl, rfl⟩
  · intro hexp hok
    exact loadRepo_safe_expired roles hok rc hmem hexp
  · intro hok
    exact loadRepo_permissive_ok roles hok
  · intro hf enf
    exact loadRepo_other_failure_fatal enf roles rc hmem hf

/-- Witness for C3: a repository whose targets role is expired fails a Safe
load with Expired, and --allow-expired-repo selects the permissive mode with
a warning. -/
theorem expiration_enforcement_policy_witness :
    (∃ r ∈ [RoleCheck.mk "root" false false, RoleCheck.mk "targets" true false],
      r.isExpired = true ∧
        loadRepo ExpirationEnforcement.safe
            [RoleCheck.mk "root" false false, RoleCheck.mk "targets" true false]
          = Except.error (LoadError.expired r.role)) ∧
    updateRunEnforcement true = (ExpirationEnforcement.permissive, true) :=
  ⟨(expiration_enforcement_policy
      [RoleCheck.mk "root" false false, RoleCheck.mk "targets" true false]
      (RoleCheck.mk "targets" true false) (by decide)).1 rfl (by decide),
   (expiration_enforcement_policy
      [RoleCheck.mk "root" false false, RoleCheck.mk "targets" true false]
      (RoleCheck.mk "targets" true false) (by decide)).2.2.2.1⟩

theorem metaLookup_of_mem (meta : List (String × Nat))
    (hnd : (meta.map Prod.fst).Nodup) (p : String × Nat) (hp : p ∈ meta) :
    metaLookup meta p.1 = some p.2 := by
  induction meta with
  | nil => cases hp
  | cons hd tl ih =>
    rw [List.map_cons, List.nodup_cons] at hnd
    cases List.mem_cons.mp hp with
    | inl he =>
      subst he
      simp [metaLookup, List.find?_cons]
    | inr htl =>
      have hne : hd.1 ≠ p.1 := by
        intro hcontra
        exact hnd.1 (hcontra ▸ (List.mem_map.mpr ⟨p, htl, rfl⟩))
      have hb : (hd.1 == p.1) = false := beq_eq_false_iff_ne.mpr hne
      rw [metaLookup, List.find?_cons, hb]
      exact ih hnd.2 htl

/-- Claim C2: a successful RepositoryEditor sign updates the roles in the
order dirty delegated targets, top-level targets, snapshot, timestamp; the
snapshot's meta map covers every written targets document with its matching
version, and the timestamp's snapshot entry matches the written snapshot's
version and digest. -/
theorem repoSign_cascade (s : RepoEditorState)
    (hnd : (s.delegated.map (fun d => d.name)).Nodup)
    (hnt : ∀ d ∈ s.delegated, d.name ≠ "targets") :
    (repoSign s).updateOrder =
      (s.delegated.filter (fun d => d.dirty)).map (fun d => d.name) ++
        ["targets", "snapshot", "timestamp"] ∧
    (∀ p ∈ (repoSign s).writtenTargetsDocs,
      metaLookup (repoSign s).snapshotMeta p.1 = some p.2) ∧
    (repoSign s).snapshotMeta = (repoSign s).writtenTargetsDocs ∧
    (repoSign s).timestampMetaSnapshotVersion = (repoSign s).snapshotVersion ∧
    (repoSign s).timestampMetaSnapshotDigest =
      snapshotDigest (repoSign s).snapshotMeta (repoSign s).snapshotVersion := by
  refine ⟨rfl, ?_, rfl, rfl, rfl⟩
  intro p hp
  apply metaLookup_of_mem _ ?_ p hp
  show ((((s.delegated.filter (fun d => d.dirty)).map (fun d => (d.name, d.version)))
      ++ [("targets", s.targetsVersion)]).map Prod.fst).Nodup
  have hsub : ((s.delegated.filter (fun d => d.dirty)).map (fun d => d.name)).Sublist
      (s.delegated.map (fun d => d.name)) :=
    (List.filter_sublist _).map _
  have h1 : ((s.delegated.filter (fun d => d.dirty)).map (fun d => d.name)).Nodup :=
    hnd.sublist hsub
  rw [List.map_append, List.map_map]
  rw [List.nodup_append]
  refine ⟨?_, List.nodup_singleton _, ?_⟩
  · simpa using h1
  · intro a ha hb
    simp at hb
    subst hb
    simp at ha
    obtain ⟨d, ⟨hd1, _⟩, hd3⟩ := ha
    exact hnt d hd1 hd3

/-- Witness for C2: one dirty delegated role is signed before the top-level
targets, snapshot and timestamp. -/
theorem repoSign_cascade_witness :
    (repoSign (RepoEditorState.mk [DelegatedDraft.mk "roleA" 3 true] 5 6 7)).updateOrder
      = ["roleA", "targets", "snapshot", "timestamp"] :=
  ((repoSign_cascade (RepoEditorState.mk [DelegatedDraft.mk "roleA" 3 true] 5 6 7)
      (by decide) (by decide)).1).trans rfl

/-- Counterexample for C4: an argument set that declares both path patterns
and path hash prefixes is not rejected by add_role — it silently chooses the
path patterns (choosePathSet has no error outcome at all), rather than
surfacing a DelegationStructureError. -/
theorem both_path_kinds_chosen_silently :
    choosePathSet (some ["a/*"]) (some ["0abc"]) = PathSet.paths ["a/*"] := rfl

/-- Claim C4 (amended): a delegation entry's path set, as represented, is
exactly one of path patterns or hash prefixes; the add-role command's
argument parser rejects supplying --paths and --path-hash-prefixes together;
but an argument set carrying both is resolved by silently choosing the path
patterns, not by surfacing a DelegationStructureError. -/
theorem path_set_exclusivity (paths prefixes : Option (List String))
    (hp : paths.isSome = true) (hx : prefixes.isSome = true) :
    addRoleArgsAccepted paths prefixes = false ∧
    (∃ p, paths = some p ∧ choosePathSet paths prefixes = PathSet.paths p) ∧
    (∀ ps : PathSet,
      (∃ l, ps = PathSet.paths l) ∨ (∃ l, ps = PathSet.pathHashPrefixes l)) := by
  obtain ⟨p, rfl⟩ := Option.isSome_iff_exists.mp hp
  obtain ⟨x, rfl⟩ := Option.isSome_iff_exists.mp hx
  refine ⟨rfl, ⟨p, rfl, rfl⟩, ?_⟩
  intro ps
  cases ps with
  | paths l => exact Or.inl ⟨l, rfl⟩
  | pathHashPrefixes l => exact Or.inr ⟨l, rfl⟩

/-- Witness for the amended C4: supplying both options fails argument
parsing. -/
theorem path_set_exclusivity_witness :
    addRoleArgsAccepted (some ["a/*"]) (some ["0abc"]) = false :=
  (path_set_exclusivity (some ["a/*"]) (some ["0abc"]) rfl rfl).1

/-- Counterexample for C5: a fully successful write_file run performs create,
write and rename only — there is no fsync of the temporary file before the
rename, contrary to the claimed write-fsync-rename sequence. -/
theorem write_file_no_fsync_counterexample :
    (write_file (WriteEnv.mk true false false false false)
        (FsState.mk none) [104, 105]).2.2
      = [FsOp.createTemp, FsOp.writeAll, FsOp.rename] ∧
    FsOp.fsync ∉ (write_file (WriteEnv.mk true false false false false)
        (FsState.mk none) [104, 105]).2.2 := by
  refine ⟨rfl, by decide⟩

/-- Claim C5 (amended): every metadata file write goes to a temporary file in
the destination's own directory and is published by a single atomic rename
(with no fsync step); on any filesystem error the destination is unchanged
and no temporary-file residue remains visible. -/
theorem write_file_atomic (env : WriteEnv) (st : FsState) (buf : List Nat) :
    FsOp.fsync ∉ (write_file env st buf).2.2 ∧
    ((write_file env st buf).1 = Except.ok () →
      (write_file env st buf).2.1 = FsState.mk (some buf) ∧
      (write_file env st buf).2.2 = [FsOp.createTemp, FsOp.writeAll, FsOp.rename] ∧
      tempResidue (write_file env st buf).2.2 = false) ∧
    (∀ e, (write_file env st buf).1 = Except.error e →
      (write_file env st buf).2.1 = st ∧
      tempResidue (write_file env st buf).2.2 = false) := by
  rcases env with ⟨hp, tc, sf, wf, pf⟩
  cases hp <;> cases tc <;> cases sf <;> cases wf <;> cases pf <;>
    simp [write_file, tempResidue]

/-- Witness for the amended C5: a failing persist leaves the old destination
contents in place. -/
theorem write_file_atomic_witness :
    (write_file (WriteEnv.mk true false false false true)
        (FsState.mk (some [7])) [1]).2.1 = FsState.mk (some [7]) :=
  ((write_file_atomic (WriteEnv.mk true false false false true)
      (FsState.mk (some [7])) [1]).2.2 WriteFailure.persistErr rfl).1

/-- Claim C10: create_role's key_hash_map resolves keys with unwrap, so a
failing key source panics the process instead of propagating an error through
the Result channel; the analogous key-pair construction in the add-key
command propagates the failure as an error instead. -/
theorem create_role_key_resolution_panics :
    key_hash_map [KeySourceModel.mk none] = PanicOr.panicked ∧
    key_hash_map [KeySourceModel.mk (some (TufKey.mk "ed25519-pub" none))]
      = PanicOr.panicked ∧
    addKeyKeyPairs [KeySourceModel.mk none]
      = Except.error CliError.keyPairFromKeySource :=
  ⟨rfl, rfl, rfl⟩

theorem hmInsert_map_fst_of_any (m : List (String × List String)) (k : String)
    (v : List String) (hany : m.any (fun p => p.1 == k) = true) :
    (hmInsert m k v).map Prod.fst = m.map Prod.fst := by
  rw [hmInsert, if_pos hany, List.map_map]
  apply List.map_congr_left
  intro p _
  by_cases hb : (p.1 == k) = true
  · simp only [Function.comp_apply, hb, if_true]
    exact (eq_of_beq hb).symm
  · have hne : p.1 ≠ k := by simpa using hb
    simp [hne]

theorem hmInsert_keys_nodup (m : List (String × List String)) (k : String)
    (v : List String) (hm : (m.map Prod.fst).Nodup) :
    ((hmInsert m k v).map Prod.fst).Nodup := by
  by_cases hany : m.any (fun p => p.1 == k) = true
  · rw [hmInsert_map_fst_of_any m k v hany]
    exact hm
  · rw [hmInsert, if_neg hany, List.map_append]
    rw [List.nodup_append]
    refine ⟨hm, by simp, ?_⟩
    intro a ha hb
    simp at hb
    subst hb
    obtain ⟨p, hp, hpk⟩ := List.mem_map.mp ha
    exact hany (List.any_eq_true.mpr ⟨p, hp, by simp [hpk]⟩)

theorem mem_hmInsert_elim (m : List (String × List String)) (k : String)
    (v : List String) (q : String × List String) (hq : q ∈ hmInsert m k v) :
    q ∈ m ∨ q = (k, v) := by
  rw [hmInsert] at hq
  by_cases hany : m.any (fun p => p.1 == k) = true
  · rw [if_pos hany] at hq
    obtain ⟨p, hp, hpq⟩ := List.mem_map.mp hq
    by_cases hb : (p.1 == k) = true
    · rw [if_pos hb] at hpq
      exact Or.inr hpq.symm
    · rw [if_neg hb] at hpq
      exact Or.inl (hpq ▸ hp)
  · rw [if_neg hany] at hq
    cases List.mem_append.mp hq with
    | inl h => exact Or.inl h
    | inr h => exact Or.inr (List.mem_singleton.mp h)

theorem self_mem_hmInsert (m : List (String × List String)) (k : String)
    (v : List String) : (k, v) ∈ hmInsert m k v := by
  rw [hmInsert]
  by_cases hany : m.any (fun p => p.1 == k) = true
  · rw [if_pos hany]
    obtain ⟨p, hp, hpk⟩ := List.any_eq_true.mp hany
    exact List.mem_map.mpr ⟨p, hp, by rw [if_pos hpk]⟩
  · rw [if_neg hany]
    exact List.mem_append.mpr (Or.inr (List.mem_singleton.mpr rfl))

theorem exists_key_hmInsert (m : List (String × List String)) (k k0 : String)
    (v : List String) (h : ∃ t, (k0, t) ∈ m) : ∃ t, (k0, t) ∈ hmInsert m k v := by
  by_cases hk : k0 = k
  · subst hk
    exact ⟨v, self_mem_hmInsert m k0 v⟩
  · obtain ⟨t, ht⟩ := h
    rw [hmInsert]
    by_cases hany : m.any (fun p => p.1 == k) = true
    · rw [if_pos hany]
      refine ⟨t, List.mem_map.mpr ⟨(k0, t), ht, ?_⟩⟩
      rw [if_neg]
      simp [hk]
    · rw [if_neg hany]
      exact ⟨t, List.mem_append.mpr (Or.inl ht)⟩

theorem buildTargetsAux_props (entries : List WalkEntry)
    (m res : List (String × List String))
    (hm : (m.map Prod.fst).Nodup)
    (hres : buildTargetsAux m entries = Except.ok res) :
    (res.map Prod.fst).Nodup ∧
    (∀ q ∈ res, q ∈ m ∨ ∃ e ∈ entries, e.isFile = true ∧ process_target e = some q) ∧
    (∀ k, (∃ t, (k, t) ∈ m) → ∃ t, (k, t) ∈ res) ∧
    (∀ e ∈ entries, e.isFile = true → ∀ n, e.pathComponents.getLast? = some n →
      ∃ t, (n, t) ∈ res) := by
  induction entries generalizing m with
  | nil =>
    rw [buildTargetsAux] at hres
    injection hres with h
    subst h
    exact ⟨hm, fun q hq => Or.inl hq, fun k ht => ht,
      fun e he => absurd he (List.not_mem_nil e)⟩
  | cons e rest ih =>
    rw [buildTargetsAux] at hres
    by_cases hf : e.isFile = true
    · rw [if_pos hf] at hres
      cases hpt : process_target e with
      | none => rw [hpt] at hres; exact Except.noConfusion hres
      | some nt =>
        rw [hpt] at hres
        obtain ⟨n, t⟩ := nt
        obtain ⟨h1, h2, h3, h4⟩ := ih (hmInsert m n t) (hmInsert_keys_nodup m n t hm) hres
        refine ⟨h1, ?_, ?_, ?_⟩
        · intro q hq
          cases h2 q hq with
          | inl hmem =>
            cases mem_hmInsert_elim m n t q hmem with
            | inl h => exact Or.inl h
            | inr h =>
              subst h
              exact Or.inr ⟨e, List.mem_cons_self _ _, hf, hpt⟩
          | inr h =>
            obtain ⟨e2, he2, hf2, hpt2⟩ := h
            exact Or.inr ⟨e2, List.mem_cons_of_mem _ he2, hf2, hpt2⟩
        · intro k hk
          exact h3 k (exists_key_hmInsert m n k t hk)
        · intro e2 he2 hf2 n2 hn2
          cases List.mem_cons.mp he2 with
          | inl he =>
            subst he
            rw [process_target, hn2] at hpt
            injection hpt with hpt2
            have hn : n2 = n := congrArg Prod.fst hpt2
            subst hn
            exact h3 n2 ⟨t, self_mem_hmInsert m n2 t⟩
          | inr he => exact h4 e2 he hf2 n2 hn2
    · rw [if_neg hf] at hres
      obtain ⟨h1, h2, h3, h4⟩ := ih m hm hres
      refine ⟨h1, ?_, h3, ?_⟩
      · intro q hq
        cases h2 q hq with
        | inl h => exact Or.inl h
        | inr h =>
          obtain ⟨e2, he2, hf2, hpt2⟩ := h
          exact Or.inr ⟨e2, List.mem_cons_of_mem _ he2, hf2, hpt2⟩
      · intro e2 he2 hf2 n2 hn2
        cases List.mem_cons.mp he2 with
        | inl he => subst he; exact absurd hf2 hf
        | inr he => exact h4 e2 he hf2 n2 hn2

theorem buildTargetsAux_filter (entries : List WalkEntry)
    (m : List (String × List String)) :
    buildTargetsAux m (entries.filter (fun e => e.isFile)) = buildTargetsAux m entries := by
  induction entries generalizing m with
  | nil => rfl
  | cons e rest ih =>
    cases hf : e.isFile with
    | true =>
      rw [List.filter_cons_of_pos (by simp [hf])]
      show buildTargetsAux m (e :: List.filter _ rest) = _
      rw [buildTargetsAux, buildTargetsAux]
      rw [if_pos hf, if_pos hf]
      cases process_target e with
      | some nt => exact ih (hmInsert m nt.1 nt.2)
      | none => rfl
    | false =>
      rw [List.filter_cons_of_neg (by simp [hf])]
      conv_rhs => rw [buildTargetsAux]
      rw [if_neg (by simp [hf])]
      exact ih m

/-- Claim C9: build_targets produces a map keyed solely by each regular
file's base name, discarding directory components: the map never holds two
entries with the same name, every entry is some regular file's base name
paired with that file's descriptor, every regular file's base name is
present, and entries that are not regular files contribute nothing. -/
theorem build_targets_basename_map (entries : List WalkEntry)
    (res : List (String × List String))
    (hres : build_targets entries = Except.ok res) :
    (res.map Prod.fst).Nodup ∧
    (∀ q ∈ res, ∃ e ∈ entries, e.isFile = true ∧
      e.pathComponents.getLast? = some q.1 ∧ q.2 = e.pathComponents) ∧
    (∀ e ∈ entries, e.isFile = true → ∀ n, e.pathComponents.getLast? = some n →
      ∃ t, (n, t) ∈ res) ∧
    build_targets (entries.filter (fun e => e.isFile)) = build_targets entries := by
  obtain ⟨h1, h2, h3, h4⟩ := buildTargetsAux_props entries [] res (by simp) hres
  refine ⟨h1, ?_, h4, buildTargetsAux_filter entries []⟩
  intro q hq
  obtain ⟨q1, q2⟩ := q
  cases h2 (q1, q2) hq with
  | inl h => exact absurd h (List.not_mem_nil _)
  | inr h =>
    obtain ⟨e, he, hf, hpt⟩ := h
    rw [process_target] at hpt
    cases hgl : e.pathComponents.getLast? with
    | none => rw [hgl] at hpt; simp at hpt
    | some name =>
      rw [hgl] at hpt
      simp at hpt
      obtain ⟨hq1, hq2⟩ := hpt
      exact ⟨e, he, hf, by rw [hgl, hq1], by rw [hq2]⟩

/-- Witness for C9: two files sub1/a.txt and sub2/a.txt and one directory
produce a single entry for a.txt holding one of the two paths. -/
theorem build_targets_basename_map_witness :
    ([("a.txt", ["sub2", "a.txt"])].map Prod.fst).Nodup ∧
    (∃ t, ("a.txt", t) ∈ [("a.txt", ["sub2", "a.txt"])]) :=
  ⟨(build_targets_basename_map
      [WalkEntry.mk ["sub1", "a.txt"] true, WalkEntry.mk ["sub2", "a.txt"] true,
        WalkEntry.mk ["sub1"] false]
      [("a.txt", ["sub2", "a.txt"])] rfl).1,
   (build_targets_basename_map
      [WalkEntry.mk ["sub1", "a.txt"] true, WalkEntry.mk ["sub2", "a.txt"] true,
        WalkEntry.mk ["sub1"] false]
      [("a.txt", ["sub2", "a.txt"])] rfl).2.2.1
      (WalkEntry.mk ["sub1", "a.txt"] true) (by decide) rfl "a.txt" rfl⟩

theorem foldl_insertKeyPair_eval (ps : List (String × TufKey))
    (g : String → Option TufKey) (x : String) :
    (ps.foldl (fun m p => insertKeyPair m p.1 p.2) g) x =
      match lastBinding ps x with
      | some k => some k
      | none => g x := by
  induction ps generalizing g with
  | nil => rfl
  | cons p ps ih =>
    rw [List.foldl_cons, lastBinding, ih]
    cases lastBinding ps x with
    | some k => rfl
    | none =>
      show insertKeyPair g p.1 p.2 x = _
      rw [insertKeyPair]
      by_cases hx : x = p.1
      · subst hx
        simp
      · have hx2 : ¬ p.1 = x := fun h => hx h.symm
        simp [hx, hx2]

theorem mem_foldl_addIfAbsent (kids : List String) (acc : List String)
    (a : String) (ha : a ∈ acc) :
    a ∈ kids.foldl (fun acc kid => if kid ∈ acc then acc else acc ++ [kid]) acc := by
  induction kids generalizing acc with
  | nil => exact ha
  | cons k ks ih =>
    rw [List.foldl_cons]
    apply ih
    by_cases hk : k ∈ acc
    · rw [if_pos hk]; exact ha
    · rw [if_neg hk]; exact List.mem_append.mpr (Or.inl ha)

theorem mem_addKeyIdsToRole_of_mem_kids (l kids : List String) (k : String)
    (hk : k ∈ kids) : k ∈ addKeyIdsToRole l kids := by
  rw [addKeyIdsToRole]
  induction kids generalizing l with
  | nil => cases hk
  | cons k0 ks ih =>
    rw [List.foldl_cons]
    cases List.mem_cons.mp hk with
    | inl he =>
      subst he
      apply mem_foldl_addIfAbsent
      by_cases hin : k ∈ l
      · rw [if_pos hin]; exact hin
      · rw [if_neg hin]; exact List.mem_append.mpr (Or.inr (List.mem_singleton.mpr rfl))
    | inr htl => exact ih _ htl

theorem addKeyIdsToRole_eq_of_subset (l kids : List String)
    (hsub : ∀ k ∈ kids, k ∈ l) : addKeyIdsToRole l kids = l := by
  rw [addKeyIdsToRole]
  induction kids with
  | nil => rfl
  | cons k0 ks ih =>
    rw [List.foldl_cons, if_pos (hsub k0 (List.mem_cons_self _ _))]
    exact ih (fun k hk => hsub k (List.mem_cons_of_mem _ hk))

theorem addKeyIdsToRole_idem (l kids : List String) :
    addKeyIdsToRole (addKeyIdsToRole l kids) kids = addKeyIdsToRole l kids :=
  addKeyIdsToRole_eq_of_subset _ _ (fun k hk => mem_addKeyIdsToRole_of_mem_kids l kids k hk)

/-- Claim C8: the editor add_key operation is idempotent on duplicate
key-ids — for every key set, applying add_key twice yields the same editor
state (key map and role assignments) as applying it once. -/
theorem add_key_idempotent (keyPairs : List (String × TufKey)) (role : Option String)
    (s : DelegationsModel) :
    add_key keyPairs role (add_key keyPairs role s) = add_key keyPairs role s := by
  cases s with
  | mk km rk =>
    simp only [add_key]
    simp only [DelegationsModel.mk.injEq]
    constructor
    · funext x
      rw [foldl_insertKeyPair_eval, foldl_insertKeyPair_eval]
      cases lastBinding keyPairs x with
      | some k => rfl
      | none => rfl
    · cases role with
      | none => rfl
      | some r =>
        funext x
        by_cases hx : x = r
        · subst hx
          simp only [if_pos rfl]
          exact addKeyIdsToRole_idem _ _
        · simp only [if_neg hx]

end TufTool
